import Mathlib

/-!
Verification development for the `gambarfb` repository (source file `src/fb.py`,
a Telegram bot producing caption variants and images) against its natural-language
specification. Pure fragments of the Python code are embedded as Lean functions;
effectful steps (network calls, the Gemini SDK, Telegram sends) are abstracted as
function parameters returning `Option`/`Except`. Components that the specification
describes but that are absent from the repository source (the video-pipeline
CanvasFitter and the overlay-line normalizer) are modelled from the spec's words,
as marked in their doc comments.
-/

namespace FB

/-- Result record of the CanvasFitter `fit` operation: scale factor, placed
dimensions, and letterbox offsets. -/
structure FitResult where
  scale : ℚ
  placedWidth : ℤ
  placedHeight : ℤ
  offsetX : ℤ
  offsetY : ℤ
  deriving DecidableEq

/-- Modelled from the spec: the repository source contains no CanvasFitter (the
video pipeline is absent from `src/fb.py`), so this follows the spec's algorithm
verbatim: `scale = min(canvasWidth / sourceWidth, canvasHeight / sourceHeight)`,
`placedWidth = round(sourceWidth * scale)`, `placedHeight = round(sourceHeight * scale)`,
`offsetX = (canvasWidth - placedWidth) / 2`, `offsetY = (canvasHeight - placedHeight) / 2`
(both floored to integer pixels). `round` rounds halves up, and divisions are exact
rational arithmetic. -/
def fit (sourceWidth sourceHeight canvasWidth canvasHeight : ℕ) : FitResult :=
  let scale : ℚ := min ((canvasWidth : ℚ) / (sourceWidth : ℚ)) ((canvasHeight : ℚ) / (sourceHeight : ℚ))
  let pw : ℤ := round ((sourceWidth : ℚ) * scale)
  let ph : ℤ := round ((sourceHeight : ℚ) * scale)
  { scale := scale
    placedWidth := pw
    placedHeight := ph
    offsetX := ⌊((canvasWidth : ℚ) - (pw : ℚ)) / 2⌋
    offsetY := ⌊((canvasHeight : ℚ) - (ph : ℚ)) / 2⌋ }

/-- Modelled from the spec: the overlay-line normalizer of the absent video
pipeline, per the spec's words "pads short lists to a minimum of 3 lines with
blanks and truncates to a maximum of 6". -/
def normalizeOverlayLines (lines : List String) : List String :=
  (lines ++ List.replicate (3 - lines.length) "").take 6

/-- Rounding a rational below a natural number bound stays below that bound. -/
theorem round_le_natCast {q : ℚ} {n : ℕ} (h : q ≤ (n : ℚ)) : round q ≤ (n : ℤ) := by
  have h2 : round q ≤ round ((n : ℚ)) := by
    rw [round_eq, round_eq]
    exact Int.floor_le_floor (by linarith)
  simpa [round_natCast] using h2

/-- The minimum of the two ratios in the concrete 1280×720 into 1080×1920 case. -/
theorem fit_concrete_min : min ((1080 : ℚ) / 1280) ((1920 : ℚ) / 720) = 27 / 32 := by
  rw [min_eq_left (by norm_num)]
  norm_num

/-- Concrete placed width: round (1280 * 27/32) = 1080. -/
theorem fit_concrete_pw : (fit 1280 720 1080 1920).placedWidth = 1080 := by
  simp only [fit, Nat.cast_ofNat]
  rw [fit_concrete_min, show (1280 : ℚ) * (27 / 32) = 1080 by norm_num]
  simp

/-- Concrete placed height: round (720 * 27/32) = round 607.5 = 608. -/
theorem fit_concrete_ph : (fit 1280 720 1080 1920).placedHeight = 608 := by
  simp only [fit, Nat.cast_ofNat]
  rw [fit_concrete_min, round_eq, show (720 : ℚ) * (27 / 32) + 1 / 2 = 608 by norm_num]
  simp

/-- C1 (amended): the canvas fit computes scale as the minimum of the two
canvas/source ratios, the placed dimensions as the rounded products of the
source dimensions with that scale, and the offsets as the floored
half-differences; for source 1280×720 and canvas 1080×1920 it yields scale
0.84375, placed size 1080×608 (round of 607.5, not 607), offsetX 0 and
offsetY 656. -/
theorem C1_amended :
    (fit 1280 720 1080 1920).scale = min ((1080 : ℚ) / 1280) ((1920 : ℚ) / 720) ∧
    (fit 1280 720 1080 1920).scale = 0.84375 ∧
    (fit 1280 720 1080 1920).placedWidth = 1080 ∧
    (fit 1280 720 1080 1920).placedHeight = 608 ∧
    (fit 1280 720 1080 1920).offsetX = 0 ∧
    (fit 1280 720 1080 1920).offsetY = 656 := by
  refine ⟨?_, ?_, fit_concrete_pw, fit_concrete_ph, ?_, ?_⟩
  · simp [fit]
  · simp only [fit, Nat.cast_ofNat]
    rw [fit_concrete_min]
    norm_num
  · simp only [fit, Nat.cast_ofNat]
    rw [fit_concrete_min, round_eq, show (1280 : ℚ) * (27 / 32) + 1 / 2 = 2161 / 2 by norm_num,
      show ⌊(2161 / 2 : ℚ)⌋ = 1080 by rw [Int.floor_eq_iff] <;> norm_num,
      show ((1080 : ℚ) - ((1080 : ℤ) : ℚ)) / 2 = 0 by push_cast; ring]
    exact Int.floor_zero
  · simp only [fit, Nat.cast_ofNat]
    rw [fit_concrete_min, round_eq, show (720 : ℚ) * (27 / 32) + 1 / 2 = 608 by norm_num,
      show ⌊(608 : ℚ)⌋ = 608 from Int.floor_ofNat 608,
      show ((1920 : ℚ) - ((608 : ℤ) : ℚ)) / 2 = 656 by push_cast; norm_num]
    exact Int.floor_ofNat 656

/-- C1 counterexample: the claim's concrete placed height 607 contradicts the
claim's own rounding formula, which gives round (720 * 0.84375) = round 607.5 = 608. -/
theorem C1_counterexample : ¬ (fit 1280 720 1080 1920).placedHeight = 607 := by
  rw [fit_concrete_ph]
  decide

/-- C5: for positive source and canvas dimensions, the fitted placement fits
inside the canvas with at least one dimension equal to its canvas dimension,
and both offsets are non-negative: the fit never crops the source frame. -/
theorem C5_contain_fit (sw sh cw ch : ℕ)
    (hsw : 0 < sw) (hsh : 0 < sh) (hcw : 0 < cw) (hch : 0 < ch) :
    (fit sw sh cw ch).placedWidth ≤ (cw : ℤ) ∧
    (fit sw sh cw ch).placedHeight ≤ (ch : ℤ) ∧
    ((fit sw sh cw ch).placedWidth = (cw : ℤ) ∨ (fit sw sh cw ch).placedHeight = (ch : ℤ)) ∧
    0 ≤ (fit sw sh cw ch).offsetX ∧
    0 ≤ (fit sw sh cw ch).offsetY := by
  have hswQ : (0 : ℚ) < (sw : ℚ) := by exact_mod_cast hsw
  have hshQ : (0 : ℚ) < (sh : ℚ) := by exact_mod_cast hsh
  set a : ℚ := (cw : ℚ) / (sw : ℚ) with ha
  set b : ℚ := (ch : ℚ) / (sh : ℚ) with hb
  have hswa : (sw : ℚ) * a = (cw : ℚ) := by
    rw [ha]; field_simp
  have hshb : (sh : ℚ) * b = (ch : ℚ) := by
    rw [hb]; field_simp
  have key1 : (sw : ℚ) * min a b ≤ (cw : ℚ) := by
    calc (sw : ℚ) * min a b ≤ (sw : ℚ) * a :=
          mul_le_mul_of_nonneg_left (min_le_left a b) (le_of_lt hswQ)
      _ = (cw : ℚ) := hswa
  have key2 : (sh : ℚ) * min a b ≤ (ch : ℚ) := by
    calc (sh : ℚ) * min a b ≤ (sh : ℚ) * b :=
          mul_le_mul_of_nonneg_left (min_le_right a b) (le_of_lt hshQ)
      _ = (ch : ℚ) := hshb
  have hpw : (fit sw sh cw ch).placedWidth = round ((sw : ℚ) * min a b) := by
    simp [fit, ha, hb]
  have hph : (fit sw sh cw ch).placedHeight = round ((sh : ℚ) * min a b) := by
    simp [fit, ha, hb]
  have hpwle : (fit sw sh cw ch).placedWidth ≤ (cw : ℤ) := by
    rw [hpw]; exact round_le_natCast key1
  have hphle : (fit sw sh cw ch).placedHeight ≤ (ch : ℤ) := by
    rw [hph]; exact round_le_natCast key2
  have heq : (fit sw sh cw ch).placedWidth = (cw : ℤ) ∨
      (fit sw sh cw ch).placedHeight = (ch : ℤ) := by
    rcases le_total a b with hab | hba
    · left
      rw [hpw, min_eq_left hab, hswa]
      exact round_natCast cw
    · right
      rw [hph, min_eq_right hba, hshb]
      exact round_natCast ch
  have hox : 0 ≤ (fit sw sh cw ch).offsetX := by
    have hcast : ((fit sw sh cw ch).placedWidth : ℚ) ≤ (cw : ℚ) := by
      exact_mod_cast hpwle
    have : (fit sw sh cw ch).offsetX =
        ⌊((cw : ℚ) - ((fit sw sh cw ch).placedWidth : ℚ)) / 2⌋ := by
      simp [fit, ha, hb]
    rw [this]
    exact Int.floor_nonneg.mpr (by linarith)
  have hoy : 0 ≤ (fit sw sh cw ch).offsetY := by
    have hcast : ((fit sw sh cw ch).placedHeight : ℚ) ≤ (ch : ℚ) := by
      exact_mod_cast hphle
    have : (fit sw sh cw ch).offsetY =
        ⌊((ch : ℚ) - ((fit sw sh cw ch).placedHeight : ℚ)) / 2⌋ := by
      simp [fit, ha, hb]
    rw [this]
    exact Int.floor_nonneg.mpr (by linarith)
  exact ⟨hpwle, hphle, heq, hox, hoy⟩

/-- C5 witness: the contain-fit property instantiated at source 100×100 and
canvas 50×80. -/
theorem C5_witness :
    (fit 100 100 50 80).placedWidth ≤ (50 : ℤ) ∧
    (fit 100 100 50 80).placedHeight ≤ (80 : ℤ) ∧
    ((fit 100 100 50 80).placedWidth = (50 : ℤ) ∨ (fit 100 100 50 80).placedHeight = (80 : ℤ)) ∧
    0 ≤ (fit 100 100 50 80).offsetX ∧
    0 ≤ (fit 100 100 50 80).offsetY :=
  C5_contain_fit 100 100 50 80 (by decide) (by decide) (by decide) (by decide)

/-- C6: overlay-line normalization always produces between 3 and 6 lines;
1 input line is padded to 3 and 10 input lines are truncated to 6. -/
theorem C6_line_count :
    (∀ lines : List String, 3 ≤ (normalizeOverlayLines lines).length ∧
      (normalizeOverlayLines lines).length ≤ 6) ∧
    (normalizeOverlayLines ["a"]).length = 3 ∧
    (normalizeOverlayLines ["1", "2", "3", "4", "5", "6", "7", "8", "9", "10"]).length = 6 := by
  refine ⟨fun lines => ?_, by decide, by decide⟩
  simp only [normalizeOverlayLines, List.length_take, List.length_append,
    List.length_replicate]
  omega

/-- One caption variant produced by the Gemini step: a title and hashtags. -/
structure Variant where
  title : String
  hashtags : List String
  deriving DecidableEq

/-- Escaping of one character as Python html.escape does: ampersand, angle
brackets, and when quote is true also double and single quotation marks. -/
def escChar (quote : Bool) (c : Char) : String :=
  if c = '&' then "&amp;"
  else if c = '<' then "&lt;"
  else if c = '>' then "&gt;"
  else if quote && c = '"' then "&quot;"
  else if quote && c = Char.ofNat 39 then "&#x27;"
  else String.singleton c

/-- Python html.escape over a whole string. -/
def htmlEscape (quote : Bool) (s : String) : String :=
  String.join (s.toList.map (escChar quote))

/-- escape_html from the source: html.escape with quote set to False. -/
def escape_html (s : String) : String := htmlEscape false s

/-- Python str.join: items joined with the separator between them, no
trailing separator. -/
def joinSep (sep : String) : List String → String
  | [] => ""
  | [x] => x
  | x :: y :: rest => x ++ sep ++ joinSep sep (y :: rest)

/-- Python h.startswith of the single character hash sign: true exactly when
the first character is a hash sign. -/
def startsWithHash (h : String) : Bool :=
  match h.toList with
  | [] => false
  | c :: _ => c = '#'

/-- Hashtag normalization used in build_caption_html and the nav:all branch:
keep the tag if it already starts with a hash sign, otherwise prefix one. -/
def ensureHash (h : String) : String :=
  if startsWithHash h then h else "#" ++ h

/-- build_caption_html from the source: bold escaped title, blank line,
space-joined normalized hashtags, and for a non-empty url a trailing
source-link block. -/
def build_caption_html (title : String) (hashtags : List String) (url : String) : String :=
  let hs := hashtags.map ensureHash
  let body := "<b>" ++ escape_html title ++ "</b>\n\n" ++ joinSep " " hs
  if url = "" then body
  else body ++ "\n\n<a href=\"" ++ escape_html url ++ "\">Sumber</a>"

/-- One block of the nav:all ("Semua Varian") message from on_cb: bold
variant label, escaped title on its own line, then the space-joined
normalized hashtags. html.escape there is called with its default,
quote set to True. -/
def variantBlock (i : ℕ) (v : Variant) : String :=
  "<b>Varian " ++ toString i ++ "</b>\n" ++ htmlEscape true v.title ++ "\n"
    ++ joinSep " " (v.hashtags.map ensureHash)

/-- The lines list built by the nav:all loop, enumerating variants from 1. -/
def variantBlocks (i : ℕ) : List Variant → List String
  | [] => []
  | v :: rest => variantBlock i v :: variantBlocks (i + 1) rest

/-- The trailing source-link line appended by nav:all when the url is non-empty. -/
def sourceLine (url : String) : String :=
  "<a href=\"" ++ htmlEscape true url ++ "\">Sumber</a>"

/-- The full text sent by the nav:all branch of on_cb: the per-variant blocks,
plus the source-link line when the url is non-empty, joined by blank lines. -/
def all_variants_text (arr : List Variant) (url : String) : String :=
  let ls := variantBlocks 1 arr
  let ls2 := if url = "" then ls else ls ++ [sourceLine url]
  joinSep "\n\n" ls2

/-- The caption-variants block layout asserted by the spec, built from the
spec's words for comparison with the source's all_variants_text: per variant
the literal layout of bracketed index, title, newline, hashtags, blank line,
with an optional trailing credits line. -/
def specVariantBlock (i : ℕ) (v : Variant) : String :=
  "[" ++ toString i ++ "] " ++ v.title ++ "\n" ++ joinSep " " v.hashtags ++ "\n\n"

/-- The spec layout's repeated blocks, indexed from 1. -/
def specVariantBlocks (i : ℕ) : List Variant → List String
  | [] => []
  | v :: rest => specVariantBlock i v :: specVariantBlocks (i + 1) rest

/-- The whole caption-variants text block as the spec claims it is laid out. -/
def spec_variants_text (arr : List Variant) (credits : String) : String :=
  String.join (specVariantBlocks 1 arr) ++ credits

/-- C4 counterexample: on a single variant with no trailing line, the text the
code produces differs from the layout the claim asserts. -/
theorem C4_counterexample :
    all_variants_text [{ title := "Halo", hashtags := ["#a", "#b"] }] "" ≠
      spec_variants_text [{ title := "Halo", hashtags := ["#a", "#b"] }] "" := by
  decide

/-- C4 (amended): the caption-variants text block consists of one block per
variant of the literal layout bold "Varian" label with 1-based index, newline,
HTML-escaped title, newline, space-joined hashtags each prefixed with a hash
sign when missing, the blocks joined by blank lines, with an optional trailing
HTML source-link line when the url is non-empty; every variant yields exactly
one block. -/
theorem C4_amended :
    (∀ v1 v2 : Variant, ∀ url : String,
      all_variants_text [v1, v2] url =
        variantBlock 1 v1 ++ "\n\n" ++ variantBlock 2 v2 ++
          (if url = "" then "" else "\n\n" ++ sourceLine url)) ∧
    (∀ (i : ℕ) (arr : List Variant), (variantBlocks i arr).length = arr.length) := by
  constructor
  · intro v1 v2 url
    by_cases h : url = "" <;>
      simp [all_variants_text, variantBlocks, joinSep, h, String.append_assoc]
  · intro i arr
    induction arr generalizing i with
    | nil => rfl
    | cons v rest ih => simp [variantBlocks, ih]

/-- Ordered text-model candidates tried by pick_gemini_text_model in the source. -/
def TEXT_MODEL_CANDIDATES : List String :=
  ["gemini-2.0-flash", "gemini-1.5-flash", "gemini-1.5-pro"]

/-- IMAGE_MODELS from the source: the ordered image-model candidates. -/
def IMAGE_MODELS : List String :=
  ["gemini-2.5-flash-image-preview", "imagen-3.0-generate-001", "imagen-3.0"]

/-- The try/except loop inside pick_gemini_text_model: ok m abstracts whether
constructing a GenerativeModel for name m succeeds; a failure falls through to
the next candidate. -/
def pickLoop (ok : String → Bool) : List String → Option String
  | [] => none
  | m :: rest => if ok m then some m else pickLoop ok rest

/-- pick_gemini_text_model from the source: the first candidate whose
construction succeeds, or the fixed default when all fail. -/
def pick_gemini_text_model (ok : String → Bool) : String :=
  (pickLoop ok TEXT_MODEL_CANDIDATES).getD "gemini-1.5-flash"

/-- The per-model loop inside gemini_generate_image_file: tryModel m abstracts
one model attempt (construction, generation and image-byte extraction); both an
exception and an attempt yielding no image bytes move on to the next model. -/
def tryLoop (tryModel : String → Option String) : List String → Option String
  | [] => none
  | m :: rest =>
    match tryModel m with
    | some img => some img
    | none => tryLoop tryModel rest

/-- gemini_generate_image_file from the source: first successfully produced
image over IMAGE_MODELS, none when every model fails. -/
def gemini_generate_image_file (tryModel : String → Option String) : Option String :=
  tryLoop tryModel IMAGE_MODELS

/-- The candidate loop returns the first listed element that succeeds. -/
theorem pickLoop_found (ok : String → Bool) (pre : List String) (m : String)
    (post : List String) (hpre : ∀ x ∈ pre, ok x = false) (hm : ok m = true) :
    pickLoop ok (pre ++ m :: post) = some m := by
  induction pre with
  | nil => simp [pickLoop, hm]
  | cons a as ih =>
    have ha : ok a = false := hpre a (by simp)
    simp only [List.cons_append, pickLoop, ha, Bool.false_eq_true, if_false]
    exact ih fun x hx => hpre x (by simp [hx])

/-- The candidate loop yields nothing when every candidate fails. -/
theorem pickLoop_none (ok : String → Bool) :
    ∀ l : List String, (∀ x ∈ l, ok x = false) → pickLoop ok l = none
  | [], _ => rfl
  | a :: as, h => by
    have ha : ok a = false := h a (by simp)
    simp only [pickLoop, ha, Bool.false_eq_true, if_false]
    exact pickLoop_none ok as fun x hx => h x (by simp [hx])

/-- The image loop returns the first listed model's image that materializes. -/
theorem tryLoop_found (tryModel : String → Option String) (pre : List String)
    (m : String) (post : List String) (img : String)
    (hpre : ∀ x ∈ pre, tryModel x = none) (hm : tryModel m = some img) :
    tryLoop tryModel (pre ++ m :: post) = some img := by
  induction pre with
  | nil => simp [tryLoop, hm]
  | cons a as ih =>
    have ha : tryModel a = none := hpre a (by simp)
    simp only [List.cons_append, tryLoop, ha]
    exact ih fun x hx => hpre x (by simp [hx])

/-- The image loop yields nothing when every model fails. -/
theorem tryLoop_none (tryModel : String → Option String) :
    ∀ l : List String, (∀ x ∈ l, tryModel x = none) → tryLoop tryModel l = none
  | [], _ => rfl
  | a :: as, h => by
    have ha : tryModel a = none := h a (by simp)
    simp only [tryLoop, ha]
    exact tryLoop_none tryModel as fun x hx => h x (by simp [hx])

/-- C3: candidate model names are tried strictly in listed order with first
success winning: the text-model picker returns the first candidate whose
construction succeeds and the fixed default when all fail, and image
generation returns the first successfully produced image over the ordered
image-model list, none when all fail. -/
theorem C3_first_success (ok : String → Bool) (tryModel : String → Option String) :
    (∀ pre m post, TEXT_MODEL_CANDIDATES = pre ++ m :: post →
      (∀ x ∈ pre, ok x = false) → ok m = true →
      pick_gemini_text_model ok = m) ∧
    ((∀ m ∈ TEXT_MODEL_CANDIDATES, ok m = false) →
      pick_gemini_text_model ok = "gemini-1.5-flash") ∧
    (∀ pre m post img, IMAGE_MODELS = pre ++ m :: post →
      (∀ x ∈ pre, tryModel x = none) → tryModel m = some img →
      gemini_generate_image_file tryModel = some img) ∧
    ((∀ m ∈ IMAGE_MODELS, tryModel m = none) →
      gemini_generate_image_file tryModel = none) := by
  refine ⟨?_, ?_, ?_, ?_⟩
  · intro pre m post hsplit hpre hm
    unfold pick_gemini_text_model
    rw [hsplit, pickLoop_found ok pre m post hpre hm]
    rfl
  · intro hall
    unfold pick_gemini_text_model
    rw [pickLoop_none ok TEXT_MODEL_CANDIDATES hall]
    rfl
  · intro pre m post img hsplit hpre hm
    unfold gemini_generate_image_file
    rw [hsplit]
    exact tryLoop_found tryModel pre m post img hpre hm
  · intro hall
    unfold gemini_generate_image_file
    exact tryLoop_none tryModel IMAGE_MODELS hall

/-- C3 witness: with only the second text candidate constructible the picker
returns it, and with only the second image model producing bytes the image
generator returns that image. -/
theorem C3_witness :
    pick_gemini_text_model (fun m => m == "gemini-1.5-flash") = "gemini-1.5-flash" ∧
    gemini_generate_image_file
      (fun m => if m == "imagen-3.0-generate-001" then some "gen.png" else none) =
      some "gen.png" := by
  have h := C3_first_success (fun m => m == "gemini-1.5-flash")
    (fun m => if m == "imagen-3.0-generate-001" then some "gen.png" else none)
  exact ⟨h.1 ["gemini-2.0-flash"] "gemini-1.5-flash" ["gemini-1.5-pro"] rfl
      (by decide) (by decide),
    h.2.2.1 ["gemini-2.5-flash-image-preview"] "imagen-3.0-generate-001"
      ["imagen-3.0"] "gen.png" rfl (by decide) (by decide)⟩

/-- One entry of the parsed JSON "variants" array of gemini_variants_for_item,
keeping just what the source's filter inspects: whether the entry is a dict,
its title value (absent or a string), and its hashtags value when it is a list. -/
structure RawV where
  isDict : Bool
  title : Option String
  hashtags : Option (List String)
  deriving DecidableEq

/-- Python truthiness of the title field: present and non-empty. -/
def truthyTitle : Option String → Bool
  | some t => t != ""
  | none => false

/-- The filter of gemini_variants_for_item: isinstance(v, dict) and
v.get("title") truthy and isinstance(v.get("hashtags"), list). -/
def keepRaw (v : RawV) : Bool :=
  v.isDict && truthyTitle v.title && v.hashtags.isSome

/-- A kept raw entry as the returned variant dictionary. -/
def rawToVariant (v : RawV) : Variant :=
  { title := v.title.getD "", hashtags := v.hashtags.getD [] }

/-- The fixed fallback variant returned by gemini_variants_for_item on any
failure, with its 20 hashtags. -/
def fallbackVariant : Variant :=
  { title := "Konten Menarik"
    hashtags := ["#info", "#viral", "#update", "#fakta", "#unik", "#trending",
                 "#today", "#berita", "#news", "#shorts", "#reels", "#tiktok",
                 "#explore", "#viralindonesia", "#indonesia", "#wow", "#keren",
                 "#inspirasi", "#hiburan", "#edukasi"] }

/-- gemini_variants_for_item from the source. parsed abstracts the model call,
code-fence stripping and JSON parsing: none stands for any exception up to and
including json.loads and the variants lookup; some arr is the parsed variants
array. The kept entries are clamped to at most max(1, min(5, nvar)); an empty
result raises, which the enclosing except turns into the fallback. -/
def gemini_variants_for_item (parsed : Option (List RawV)) (nvar : ℤ) : List Variant :=
  match parsed with
  | none => [fallbackVariant]
  | some arr =>
    let kept := arr.filter keepRaw
    let clamped := kept.take (max 1 (min 5 nvar)).toNat
    if clamped = [] then [fallbackVariant]
    else clamped.map rawToVariant

/-- A variant built from a kept raw entry has a non-empty title. -/
theorem title_ne_of_keep {r : RawV} (h : keepRaw r = true) :
    (rawToVariant r).title ≠ "" := by
  unfold keepRaw at h
  simp only [Bool.and_eq_true] at h
  obtain ⟨⟨_, ht⟩, _⟩ := h
  cases hr : r.title with
  | none => rw [hr] at ht; simp [truthyTitle] at ht
  | some t =>
    rw [hr] at ht
    simp only [truthyTitle, bne_iff_ne, ne_eq] at ht
    simpa [rawToVariant, hr] using ht

/-- C8: the caption-variant generator is total and never returns an empty
list; the result has at most max(1, min(5, nvar)) entries, each with a
non-empty title; a model/parse failure or an empty filtered list yields the
fixed single fallback variant, which has 20 hashtags. -/
theorem C8_variants_total (parsed : Option (List RawV)) (nvar : ℤ) :
    gemini_variants_for_item parsed nvar ≠ [] ∧
    (gemini_variants_for_item parsed nvar).length ≤ (max 1 (min 5 nvar)).toNat ∧
    (∀ v ∈ gemini_variants_for_item parsed nvar, v.title ≠ "") ∧
    (parsed = none → gemini_variants_for_item parsed nvar = [fallbackVariant]) ∧
    (∀ arr, parsed = some arr → arr.filter keepRaw = [] →
      gemini_variants_for_item parsed nvar = [fallbackVariant]) ∧
    fallbackVariant.hashtags.length = 20 := by
  have hmax : 1 ≤ (max 1 (min 5 nvar)).toNat := by
    have h1 : (1 : ℤ) ≤ max 1 (min 5 nvar) := le_max_left _ _
    omega
  have hfb : fallbackVariant.title ≠ "" := by decide
  cases parsed with
  | none =>
    refine ⟨by simp [gemini_variants_for_item], ?_, ?_, fun _ => rfl, ?_, by decide⟩
    · simpa [gemini_variants_for_item] using hmax
    · intro v hv
      simp [gemini_variants_for_item] at hv
      rw [hv]
      exact hfb
    · intro arr harr
      exact absurd harr (by simp)
  | some arr =>
    by_cases hcl : arr.filter keepRaw = []
    · have hres : gemini_variants_for_item (some arr) nvar = [fallbackVariant] := by
        simp [gemini_variants_for_item, hcl]
      refine ⟨by simp [hres], by simpa [hres] using hmax, ?_, by simp, ?_, by decide⟩
      · intro v hv
        rw [hres] at hv
        simp at hv
        rw [hv]
        exact hfb
      · intro arr2 _ _
        exact hres
    · by_cases hcl2 : (arr.filter keepRaw).take (max 1 (min 5 nvar)).toNat = []
      · have hres : gemini_variants_for_item (some arr) nvar = [fallbackVariant] := by
          simp [gemini_variants_for_item, hcl2]
        refine ⟨by simp [hres], by simpa [hres] using hmax, ?_, by simp, ?_, by decide⟩
        · intro v hv
          rw [hres] at hv
          simp at hv
          rw [hv]
          exact hfb
        · intro arr2 _ _
          exact hres
      · have hres : gemini_variants_for_item (some arr) nvar =
            ((arr.filter keepRaw).take (max 1 (min 5 nvar)).toNat).map rawToVariant := by
          simp [gemini_variants_for_item, hcl2]
        refine ⟨?_, ?_, ?_, by simp, ?_, by decide⟩
        · rw [hres]
          simpa using hcl2
        · rw [hres]
          simp [List.length_take]
        · intro v hv
          rw [hres] at hv
          obtain ⟨r, hr, hconv⟩ := List.mem_map.mp hv
          have hrf : r ∈ arr.filter keepRaw := List.take_subset _ _ hr
          have hk : keepRaw r = true := (List.mem_filter.mp hrf).2
          rw [← hconv]
          exact title_ne_of_keep hk
        · intro arr2 harr2 hfil
          injection harr2 with harr2
          subst harr2
          exact absurd hfil hcl

/-- C8 witness: a failed parse yields exactly the single fallback variant with
its 20 hashtags. -/
theorem C8_witness :
    gemini_variants_for_item none 4 = [fallbackVariant] ∧
    fallbackVariant.hashtags.length = 20 :=
  ⟨(C8_variants_total none 4).2.2.2.1 rfl, (C8_variants_total none 4).2.2.2.2.2⟩

/-- One source item as fetched by fetch_google_news or fetch_wikipedia_facts. -/
structure Item where
  title : String
  url : String
  published : String
  summary : String
  image : String
  deriving DecidableEq

/-- A message delivered to the chat by the per-item loop: either content sent
on success or the failure notice sent by the except branch. -/
inductive Msg where
  | delivered (content : String)
  | failure (err : String)
  deriving DecidableEq

/-- The per-article loop of the go branch of on_cb: body abstracts the try
block for one item (variant generation, image choice, sends, state updates),
returning the messages it delivered, or the exception text; the except branch
turns an exception into a single failure message, and the loop then moves on
to the next item. -/
def processItems (body : Item → Except String (List Msg)) : List Item → List Msg
  | [] => []
  | it :: rest =>
    (match body it with
     | Except.ok ms => ms
     | Except.error e => [Msg.failure e]) ++ processItems body rest

/-- C2: a failing item does not terminate the loop: its error is caught and
reported as a failure message, and processing continues unchanged with the
remaining items. -/
theorem C2_loop_continues (body : Item → Except String (List Msg)) (it : Item)
    (rest : List Item) (e : String) (h : body it = Except.error e) :
    processItems body (it :: rest) = Msg.failure e :: processItems body rest := by
  simp [processItems, h]

/-- A concrete item for witnesses. -/
def sampleItem : Item :=
  { title := "t", url := "u", published := "", summary := "", image := "" }

/-- C2 witness: with a body that always raises, the loop reports the failure
and still processes the remaining item. -/
theorem C2_witness :
    processItems (fun _ => Except.error "boom") (sampleItem :: [sampleItem]) =
      Msg.failure "boom" :: processItems (fun _ => Except.error "boom") [sampleItem] :=
  C2_loop_continues (fun _ => Except.error "boom") sampleItem [sampleItem] "boom" rfl

/-- An execution event of the per-article loop: an iteration starting or its
outcome being reported. -/
inductive JobEv where
  | jobStart (i : ℕ)
  | jobOutcome (i : ℕ) (success : Bool)
  deriving DecidableEq

/-- Execution-order trace of the sequential per-article loop starting at
iteration number k: each iteration is awaited to completion, so its start and
outcome events precede every event of later iterations; there is no
interleaving because the loop body runs synchronously within one callback. -/
def jobTrace (body : Item → Except String (List Msg)) (k : ℕ) : List Item → List JobEv
  | [] => []
  | it :: rest =>
    JobEv.jobStart k ::
    JobEv.jobOutcome k (match body it with
      | Except.ok _ => true
      | Except.error _ => false) ::
    jobTrace body (k + 1) rest

/-- Positions in the loop trace: iteration i starts at position 2i and its
outcome is reported at position 2i+1. -/
theorem jobTrace_get (body : Item → Except String (List Msg)) :
    ∀ (items : List Item) (k i : ℕ), i < items.length →
      ∃ b : Bool,
        (jobTrace body k items).get? (2 * i) = some (JobEv.jobStart (k + i)) ∧
        (jobTrace body k items).get? (2 * i + 1) = some (JobEv.jobOutcome (k + i) b) := by
  intro items
  induction items with
  | nil => intro k i h; simp at h
  | cons it rest ih =>
    intro k i h
    cases i with
    | zero =>
      refine ⟨(match body it with
        | Except.ok _ => true
        | Except.error _ => false), ?_, ?_⟩
      · simp [jobTrace]
      · simp [jobTrace]
    | succ n =>
      obtain ⟨b, h1, h2⟩ := ih (k + 1) n (by simpa using h)
      refine ⟨b, ?_, ?_⟩
      · rw [show 2 * (n + 1) = 2 * n + 1 + 1 by ring, show k + (n + 1) = k + 1 + n by ring]
        simpa [jobTrace] using h1
      · rw [show 2 * (n + 1) + 1 = (2 * n + 1) + 1 + 1 by ring,
          show k + (n + 1) = k + 1 + n by ring]
        simpa [jobTrace] using h2

/-- C7: the loop is FIFO and serialized: for items i before j, iteration i
starts at trace position 2i, its outcome is reported at the adjacent position
2i+1 (no other iteration's event intervenes), and iteration j only starts at
the strictly later position 2j, so the outcome of an earlier item is always
reported before a later item begins and no two items are in flight at once. -/
theorem C7_fifo (body : Item → Except String (List Msg)) (items : List Item)
    (i j : ℕ) (hij : i < j) (hj : j < items.length) :
    ∃ b : Bool,
      (jobTrace body 0 items).get? (2 * i) = some (JobEv.jobStart i) ∧
      (jobTrace body 0 items).get? (2 * i + 1) = some (JobEv.jobOutcome i b) ∧
      (jobTrace body 0 items).get? (2 * j) = some (JobEv.jobStart j) ∧
      2 * i + 1 < 2 * j := by
  obtain ⟨b, h1, h2⟩ := jobTrace_get body items 0 i (lt_trans hij hj)
  obtain ⟨c, h3, _⟩ := jobTrace_get body items 0 j hj
  exact ⟨b, by simpa using h1, by simpa using h2, by simpa using h3, by omega⟩

/-- C7 witness: with two submitted items, the first item's outcome sits at
trace position 1, strictly before the second item's start at position 2. -/
theorem C7_witness :
    ∃ b : Bool,
      (jobTrace (fun _ => Except.error "x") 0 [sampleItem, sampleItem]).get? (2 * 0) =
        some (JobEv.jobStart 0) ∧
      (jobTrace (fun _ => Except.error "x") 0 [sampleItem, sampleItem]).get? (2 * 0 + 1) =
        some (JobEv.jobOutcome 0 b) ∧
      (jobTrace (fun _ => Except.error "x") 0 [sampleItem, sampleItem]).get? (2 * 1) =
        some (JobEv.jobStart 1) ∧
      2 * 0 + 1 < 2 * 1 :=
  C7_fifo (fun _ => Except.error "x") [sampleItem, sampleItem] 0 1 (by decide) (by simp)

/-- The per-message carousel state stored in MSG_STATE: the variants list, the
current index, and the article url. The index is stored as an integer exactly
as Python does; navigation keeps it in range via the modulo operation. -/
structure CarouselState where
  variants : List Variant
  index : ℤ
  url : String
  deriving DecidableEq

/-- The nav:prev branch of on_cb: idx = (idx - 1) % len(arr). Lean's % on ℤ
agrees with Python's % for a positive modulus. -/
def navPrev (s : CarouselState) : CarouselState :=
  { s with index := (s.index - 1) % (s.variants.length : ℤ) }

/-- The nav:next branch of on_cb: idx = (idx + 1) % len(arr). -/
def navNext (s : CarouselState) : CarouselState :=
  { s with index := (s.index + 1) % (s.variants.length : ℤ) }

/-- The caption shown after navigation: build_caption_html applied to the
variant at the current index, as in the source's v = arr[idx]. -/
def displayedCaption (s : CarouselState) : String :=
  let v := s.variants.getD s.index.toNat { title := "", hashtags := [] }
  build_caption_html v.title v.hashtags s.url

/-- C9: with a non-empty variants list and an in-range stored index, Prev and
Next keep the index in range, and Next after Prev (and Prev after Next)
restores the original state and hence the original displayed caption. -/
theorem C9_carousel (s : CarouselState) (h0 : 0 ≤ s.index)
    (h1 : s.index < (s.variants.length : ℤ)) :
    (0 ≤ (navPrev s).index ∧ (navPrev s).index < (s.variants.length : ℤ)) ∧
    (0 ≤ (navNext s).index ∧ (navNext s).index < (s.variants.length : ℤ)) ∧
    navNext (navPrev s) = s ∧
    navPrev (navNext s) = s ∧
    displayedCaption (navNext (navPrev s)) = displayedCaption s ∧
    displayedCaption (navPrev (navNext s)) = displayedCaption s := by
  have hn : (0 : ℤ) < (s.variants.length : ℤ) := lt_of_le_of_lt h0 h1
  have hnz : (s.variants.length : ℤ) ≠ 0 := ne_of_gt hn
  have key1 : ((s.index - 1) % (s.variants.length : ℤ) + 1) % (s.variants.length : ℤ) =
      s.index := by
    rw [Int.emod_add_emod, sub_add_cancel, Int.emod_eq_of_lt h0 h1]
  have key2 : ((s.index + 1) % (s.variants.length : ℤ) - 1) % (s.variants.length : ℤ) =
      s.index := by
    rw [sub_eq_add_neg, Int.emod_add_emod, ← sub_eq_add_neg, add_sub_cancel_right,
      Int.emod_eq_of_lt h0 h1]
  have hstate1 : navNext (navPrev s) = s := by
    show { s with index := ((s.index - 1) % (s.variants.length : ℤ) + 1) %
      (s.variants.length : ℤ) } = s
    rw [key1]
  have hstate2 : navPrev (navNext s) = s := by
    show { s with index := ((s.index + 1) % (s.variants.length : ℤ) - 1) %
      (s.variants.length : ℤ) } = s
    rw [key2]
  refine ⟨⟨Int.emod_nonneg _ hnz, Int.emod_lt_of_pos _ hn⟩,
    ⟨Int.emod_nonneg _ hnz, Int.emod_lt_of_pos _ hn⟩,
    hstate1, hstate2, congrArg displayedCaption hstate1, congrArg displayedCaption hstate2⟩

/-- A concrete stored carousel state for the witness. -/
def sampleCarousel : CarouselState :=
  { variants := [{ title := "A", hashtags := ["#a"] }, { title := "B", hashtags := ["#b"] }]
    index := 1
    url := "u" }

/-- C9 witness: the navigation round trips restore the concrete sample state. -/
theorem C9_witness :
    navNext (navPrev sampleCarousel) = sampleCarousel ∧
    navPrev (navNext sampleCarousel) = sampleCarousel :=
  ⟨(C9_carousel sampleCarousel (by decide) (by decide)).2.2.1,
   (C9_carousel sampleCarousel (by decide) (by decide)).2.2.2.1⟩

/-- The per-chat configuration stored in CHAT_CONF. -/
structure ChatConf where
  mode : String
  lang : String
  variants : ℤ
  count : ℤ
  deriving DecidableEq

/-- init_chat from the source: the defaults DEF_MODE news, DEF_LANG id,
DEF_VAR 4 variants, DEF_CNT 3 articles. -/
def init_chat : ChatConf :=
  { mode := "news", lang := "id", variants := 4, count := 3 }

/-- One configuration callback handled by on_cb: the conf:mode, conf:lang,
conf:var and conf:cnt branches, and the reset branch which restores defaults. -/
inductive ConfAction where
  | setMode (v : String)
  | setLang (v : String)
  | setVar (v : ℤ)
  | setCnt (v : ℤ)
  | reset
  deriving DecidableEq

/-- The state update of one configuration callback: var is clamped with
max(3, min(5, value)) and cnt with max(1, min(5, value)), exactly as in the
source; reset re-initializes to the defaults. -/
def applyConf (c : ChatConf) : ConfAction → ChatConf
  | ConfAction.setMode v => { c with mode := v }
  | ConfAction.setLang v => { c with lang := v }
  | ConfAction.setVar v => { c with variants := max 3 (min 5 v) }
  | ConfAction.setCnt v => { c with count := max 1 (min 5 v) }
  | ConfAction.reset => init_chat

/-- The configuration invariant: variants in [3,5] and count in [1,5]. -/
def confOK (c : ChatConf) : Prop :=
  3 ≤ c.variants ∧ c.variants ≤ 5 ∧ 1 ≤ c.count ∧ c.count ≤ 5

/-- One configuration callback preserves the invariant. -/
theorem confOK_apply {c : ChatConf} (h : confOK c) (a : ConfAction) :
    confOK (applyConf c a) := by
  cases a <;> simp only [applyConf, confOK, init_chat] at h ⊢ <;> omega

/-- Every sequence of configuration callbacks preserves the invariant. -/
theorem confOK_foldl : ∀ (acts : List ConfAction) (c : ChatConf), confOK c →
    confOK (acts.foldl applyConf c)
  | [], _, h => h
  | a :: rest, c, h => confOK_foldl rest (applyConf c a) (confOK_apply h a)

/-- C10: starting from the defaults 4 variants and 3 articles, after any
sequence of configuration callbacks the stored variants value stays in [3,5]
and the article count stays in [1,5]. -/
theorem C10_conf_invariant :
    (init_chat.variants = 4 ∧ init_chat.count = 3) ∧
    ∀ acts : List ConfAction,
      3 ≤ (acts.foldl applyConf init_chat).variants ∧
      (acts.foldl applyConf init_chat).variants ≤ 5 ∧
      1 ≤ (acts.foldl applyConf init_chat).count ∧
      (acts.foldl applyConf init_chat).count ≤ 5 := by
  refine ⟨⟨rfl, rfl⟩, fun acts => ?_⟩
  exact confOK_foldl acts init_chat (by simp [confOK, init_chat])

end FB
